import Mathlib

/-!
Shallow embedding of the item-extraction / product-matching / result-fusion
pipeline of the outfit-shopping service, together with proofs of the
specification's testable properties.

Embedded source units:
* `ItemExtractionService` (item extraction, regex fallback, basic fallback,
  paired-item deduplication);
* `ShoppingSearchService` (per-item visual product matching, multi-source
  deduplication, relevance ranking).

Modelling conventions:
* JavaScript numbers are modelled as exact rationals (`ℚ`) where fractional
  values occur and as `ℕ` where the code only ever produces small nonnegative
  integers (relevance scores).
* JavaScript string truthiness (`undefined`/`''` are falsy) is modelled by
  `jsTruthy` on `Option String`.
* External effects (HTTP fetches, generative-model calls, the system clock,
  the MD5 digest) are modelled as explicit function parameters, so every
  definition is a pure function of its inputs.
* `Array.prototype.sort` is modelled as a stable insertion sort (ECMAScript
  guarantees sort stability).
-/

namespace OutfitShopping

/-- JavaScript string truthiness on optional string fields:
`undefined` and `''` are falsy, everything else truthy. -/
def jsTruthy (o : Option String) : Bool :=
  match o with
  | none => false
  | some s => if s = "" then false else true

/-- ASCII lowercasing of one character (`String.prototype.toLowerCase` on
the ASCII strings this pipeline manipulates). -/
def toLowerChar (c : Char) : Char :=
  if 'A' ≤ c ∧ c ≤ 'Z' then Char.ofNat (c.toNat + 32) else c

/-- `s.toLowerCase()` on ASCII strings. -/
def jsToLower (s : String) : String :=
  String.mk (s.data.map toLowerChar)

/-- `s.split(sep)` for a one-character separator: splits at every
occurrence, keeping empty segments (JavaScript `String.prototype.split`). -/
def splitOnCharAux (sep : Char) : List Char → List Char → List String
  | [], acc => [String.mk acc.reverse]
  | c :: rest, acc =>
    if c = sep then String.mk acc.reverse :: splitOnCharAux sep rest []
    else splitOnCharAux sep rest (c :: acc)

/-- `s.split(sep)` for a one-character separator. -/
def splitOnChar (sep : Char) (s : String) : List String :=
  splitOnCharAux sep s.data []

/-- A character matched by the JavaScript regex class `\w` (ASCII word char). -/
def isWordChar (c : Char) : Bool :=
  c.isAlpha || c.isDigit || c = '_'

/-- A character matched by the JavaScript regex class `\s`
(restricted to the ASCII whitespace that occurs in the pipeline's strings). -/
def isWs (c : Char) : Bool :=
  c = ' ' || c = '\t' || c = '\n' || c = '\r'

/-- Replace each maximal run of whitespace by a single space:
the JavaScript idiom `.replace(/\s+/g, ' ')`. -/
def collapseWs (cs : List Char) : List Char :=
  ((cs.splitBy (fun a b => isWs a == isWs b)).map
    (fun run => match run with
      | [] => []
      | c :: _ => if isWs c then [' '] else run)).flatten

/-- Drop leading and trailing whitespace: the JavaScript `.trim()`. -/
def trimChars (cs : List Char) : List Char :=
  ((cs.dropWhile isWs).reverse.dropWhile isWs).reverse

/-- Remove every maximal word-character run equal to one of the given words,
leaving all other characters in place: the JavaScript
`.replace(/\b(w1|w2|...)\b/g, '')` for plain words `wi`. -/
def removeWordRuns (stop : List String) (cs : List Char) : List Char :=
  ((cs.splitBy (fun a b => isWordChar a == isWordChar b)).map
    (fun run => match run with
      | [] => []
      | c :: _ =>
        if isWordChar c && stop.contains (String.mk run) then [] else run)).flatten

/-- `prefixMatch needle hay` : does `needle` occur at the start of `hay`? -/
def prefixMatch : List Char → List Char → Bool
  | [], _ => true
  | _ :: _, [] => false
  | a :: as, b :: bs => a == b && prefixMatch as bs

/-- `containsSub needle hay` : does `needle` occur contiguously in `hay`? -/
def containsSub (needle : List Char) : List Char → Bool
  | [] => prefixMatch needle []
  | c :: rest => prefixMatch needle (c :: rest) || containsSub needle rest

/-- Case-insensitive substring test: the JavaScript
`new RegExp(word, 'gi').test(text)` for a plain lowercase word. -/
def containsCI (text word : String) : Bool :=
  containsSub word.data (jsToLower text).data

/-- Nonnegative JavaScript float remainder `a % b` (both operands
nonnegative in the embedded code), on exact rationals. -/
def jsMod (a b : ℚ) : ℚ :=
  a - b * ((a / b).floor : ℤ)

namespace ItemExtractionService

/-- `boundingBox` of an `ExtractedItem`: normalized rectangle. -/
structure BoundingBox where
  x : ℚ
  y : ℚ
  width : ℚ
  height : ℚ
deriving DecidableEq

/-- The `ExtractedItem` interface of `ItemExtractionService`. -/
structure ExtractedItem where
  id : String
  pieceType : String
  description : String
  boundingBox : BoundingBox
  confidence : ℚ
  extractedImagePath : Option String := none
  extractedImageUrl : Option String := none
  color : Option String := none
  pattern : Option String := none
  style : Option String := none
deriving DecidableEq

/-- One entry of the JSON array parsed out of the generative model's
response text: every field is optional, as in untyped parsed JSON. -/
structure RawItem where
  pieceType : Option String := none
  description : Option String := none
  boundingBox : Option BoundingBox := none
  confidence : Option ℚ := none
  color : Option String := none
  pattern : Option String := none
  style : Option String := none
deriving DecidableEq

/-- `normalizePieceType`: lowercase, then canonicalize synonyms through the
static type map (boots/sneakers/... ↦ shoes, etc.). -/
def normalizePieceType (pieceType : String) : String :=
  let type := jsToLower pieceType
  if type = "shoe" then "shoes"
  else if type = "boot" then "shoes"
  else if type = "boots" then "shoes"
  else if type = "sneaker" then "shoes"
  else if type = "sneakers" then "shoes"
  else if type = "sandal" then "shoes"
  else if type = "sandals" then "shoes"
  else if type = "heel" then "shoes"
  else if type = "heels" then "shoes"
  else if type = "earring" then "earrings"
  else if type = "glove" then "gloves"
  else if type = "sock" then "socks"
  else if type = "stocking" then "socks"
  else type

/-- `normalizeDescription`: lowercase, remove the words
left/right/pair/pairs/both, collapse whitespace, trim, first 50 chars. -/
def normalizeDescription (description : String) : String :=
  String.mk
    ((trimChars (collapseWs
      (removeWordRuns ["left", "right", "pair", "pairs", "both"]
        (jsToLower description).data))).take 50)

/-- `generateItemKey`: composite dedup key
`normalizedType-normalizedColor-normalizedDescription`. -/
def generateItemKey (item : ExtractedItem) : String :=
  let normalizedType := normalizePieceType item.pieceType
  let normalizedColor :=
    if jsTruthy item.color then jsToLower (item.color.getD "") else "unknown"
  let normalizedDescription := normalizeDescription item.description
  normalizedType ++ "-" ++ normalizedColor ++ "-" ++ normalizedDescription

/-- The static color groups of `colorsMatch`. -/
def colorGroups : List (List String) :=
  [["black", "dark", "charcoal"],
   ["white", "cream", "ivory", "off-white"],
   ["blue", "navy", "denim"],
   ["brown", "tan", "beige", "camel"],
   ["red", "burgundy", "wine"],
   ["pink", "rose", "blush"]]

/-- `colorsMatch`: missing colors match anything; otherwise exact
lowercase match or joint membership in one semantic color group. -/
def colorsMatch (color1 color2 : Option String) : Bool :=
  if jsTruthy color1 = false || jsTruthy color2 = false then true
  else
    let c1 := jsToLower (color1.getD "")
    let c2 := jsToLower (color2.getD "")
    if c1 = c2 then true
    else colorGroups.any (fun group => group.contains c1 && group.contains c2)

/-- `calculateDescriptionSimilarity`: Jaccard overlap of the sets of
words longer than two characters. -/
def calculateDescriptionSimilarity (desc1 desc2 : String) : ℚ :=
  let words1 := (splitOnChar ' ' desc1).filter (fun w => w.length > 2)
  let words2 := (splitOnChar ' ' desc2).filter (fun w => w.length > 2)
  let inter := (words1.dedup.filter (fun w => words2.contains w)).length
  let union := (words1 ++ words2).dedup.length
  if union > 0 then (inter : ℚ) / (union : ℚ) else 0

/-- `calculateSpatialSimilarity`: intersection-over-union of two boxes. -/
def calculateSpatialSimilarity (box1 box2 : BoundingBox) : ℚ :=
  let x1 := max box1.x box2.x
  let y1 := max box1.y box2.y
  let x2 := min (box1.x + box1.width) (box2.x + box2.width)
  let y2 := min (box1.y + box1.height) (box2.y + box2.height)
  if x2 ≤ x1 || y2 ≤ y1 then 0
  else
    let overlapArea := (x2 - x1) * (y2 - y1)
    let box1Area := box1.width * box1.height
    let box2Area := box2.width * box2.height
    let unionArea := box1Area + box2Area - overlapArea
    if unionArea > 0 then overlapArea / unionArea else 0

/-- The paired piece types of `isDuplicatePairedItem`. -/
def pairedTypes : List String := ["shoes", "earrings", "gloves", "socks"]

/-- `isDuplicatePairedItem`: a paired-type item duplicates an already-kept
same-type item when the colors match and either the normalized descriptions
overlap above 0.6 or the bounding boxes overlap above 0.3. -/
def isDuplicatePairedItem (newItem : ExtractedItem)
    (existingItems : List ExtractedItem) : Bool :=
  let newItemType := normalizePieceType newItem.pieceType
  if pairedTypes.contains newItemType = false then false
  else
    existingItems.any (fun existingItem =>
      let existingType := normalizePieceType existingItem.pieceType
      if existingType = newItemType then
        colorsMatch newItem.color existingItem.color &&
          (if calculateDescriptionSimilarity
              (normalizeDescription newItem.description)
              (normalizeDescription existingItem.description) > (3 : ℚ) / 5
           then true
           else if calculateSpatialSimilarity newItem.boundingBox
              existingItem.boundingBox > (3 : ℚ) / 10
           then true
           else false)
      else false)

/-- The loop of `removeDuplicateItems`: `dedup` is the list built so far,
`seen` the set of item keys added on first occurrence. -/
def removeDuplicateItemsAux :
    List ExtractedItem → List ExtractedItem → List String → List ExtractedItem
  | [], dedup, _ => dedup
  | item :: rest, dedup, seen =>
    if generateItemKey item ∈ seen then
      if isDuplicatePairedItem item dedup then
        removeDuplicateItemsAux rest dedup seen
      else
        removeDuplicateItemsAux rest (dedup ++ [item]) seen
    else
      removeDuplicateItemsAux rest (dedup ++ [item])
        (generateItemKey item :: seen)

/-- `removeDuplicateItems`: keep every item whose composite key is new;
for an item whose key was already seen, keep it unless the paired-item
duplicate check fires against the items kept so far. -/
def removeDuplicateItems (items : List ExtractedItem) : List ExtractedItem :=
  removeDuplicateItemsAux items [] []

/-- `item.field || default` for string fields of parsed JSON entries:
`undefined` and `''` fall back to the default. -/
def jsOrStr (o : Option String) (d : String) : String :=
  if jsTruthy o then o.getD "" else d

/-- One parsed JSON entry turned into an `ExtractedItem` by
`parseGeminiResponse`. The id is
``extracted-`` followed by the first 8 hex chars of
`md5(flatLayImageUrl + index)`; `md5hex` abstracts the MD5 hex digest. -/
def mkParsedItem (md5hex : String → String) (flatLayImageUrl : String)
    (index : ℕ) (item : RawItem) : ExtractedItem :=
  { id := "extracted-" ++ (md5hex (flatLayImageUrl ++ toString index)).take 8,
    pieceType := jsOrStr item.pieceType "unknown",
    description :=
      jsOrStr item.description ((item.pieceType.getD "undefined") ++ " item"),
    boundingBox := item.boundingBox.getD
      { x := 1/10, y := 1/10, width := 4/5, height := 4/5 },
    confidence :=
      match item.confidence with
      | some c => if c = 0 then 4/5 else c
      | none => 4/5,
    color := item.color,
    pattern := item.pattern,
    style := item.style }

/-- The clothing keywords scanned for by `extractItemsWithRegex`. -/
def clothingTypes : List String :=
  ["dress", "shirt", "pants", "shoes", "bag", "sunglasses", "jewelry",
   "jacket", "coat", "skirt", "shorts"]

/-- `type.charAt(0).toUpperCase() + type.slice(1)`. -/
def capitalizeFirst (s : String) : String :=
  match s.data with
  | [] => ""
  | c :: cs => String.mk (c.toUpper :: cs)

/-- The fallback entry `extractItemsWithRegex` emits for the clothing
keyword at index `i` of `clothingTypes`: low confidence 0.7 and a
placeholder bounding box tiled across the image. -/
def regexFallbackItem (i : ℕ) (type : String) : ExtractedItem :=
  { id := "extracted-fallback-" ++ toString i,
    pieceType := type,
    description := capitalizeFirst type ++ " identified in flat lay",
    boundingBox :=
      { x := 1/10 + jsMod ((i : ℚ) * (1/10)) (4/5),
        y := 1/10 + ((i / 3 : ℕ) : ℚ) * (3/10),
        width := 3/10,
        height := 3/10 },
    confidence := 7/10,
    color := some "various",
    pattern := some "unknown",
    style := some "casual" }

/-- `extractItemsWithRegex`: keyword-scan fallback used when JSON parsing
fails entirely; one entry per known clothing keyword found
(case-insensitively) in the raw response text, capped to 5 entries.
(The `flatLayImageUrl` parameter exists in the source but is unused.) -/
def extractItemsWithRegex (analysisText flatLayImageUrl : String) :
    List ExtractedItem :=
  ((clothingTypes.enum.filter
      (fun ti => containsCI analysisText ti.2)).map
    (fun ti => regexFallbackItem ti.1 ti.2)).take 5

/-- `parseGeminiResponse`: on a successfully parsed JSON array (`jsonParse
= some raws`, abstracting `JSON.parse` plus the array check over the
extracted JSON text), each entry is mapped positionally to an
`ExtractedItem`; if parsing fails (`none`), fall back to the keyword scan. -/
def parseGeminiResponse (md5hex : String → String)
    (jsonParse : Option (List RawItem))
    (analysisText flatLayImageUrl : String) : List ExtractedItem :=
  match jsonParse with
  | some raws =>
    raws.enum.map (fun ir => mkParsedItem md5hex flatLayImageUrl ir.1 ir.2)
  | none => extractItemsWithRegex analysisText flatLayImageUrl

/-- `generateFallbackItems`: the fixed dress/shoes/bag placeholders produced
when the extraction call itself fails. Each id embeds `Date.now()`,
modelled by the explicit clock value `now`. -/
def generateFallbackItems (flatLayImageUrl : String) (now : ℕ) :
    List ExtractedItem :=
  [{ id := "fallback-dress-" ++ toString now,
     pieceType := "dress",
     description := "Dress from flat lay outfit",
     boundingBox := { x := 1/5, y := 1/10, width := 3/5, height := 7/10 },
     confidence := 3/5,
     color := some "various", pattern := some "unknown",
     style := some "casual" },
   { id := "fallback-shoes-" ++ toString now,
     pieceType := "shoes",
     description := "Shoes from flat lay outfit",
     boundingBox := { x := 1/10, y := 4/5, width := 3/10, height := 3/20 },
     confidence := 3/5,
     color := some "various", pattern := some "unknown",
     style := some "casual" },
   { id := "fallback-bag-" ++ toString now,
     pieceType := "bag",
     description := "Bag from flat lay outfit",
     boundingBox := { x := 7/10, y := 3/10, width := 1/4, height := 3/10 },
     confidence := 3/5,
     color := some "various", pattern := some "unknown",
     style := some "casual" }]

/-- `enhanceItemDescription`: reassemble a shopping-oriented description
from the structured attributes, skipping sentinel values, plus
category-specific keywords. -/
def enhanceItemDescription (item : ExtractedItem) : String :=
  let parts : List String :=
    (if jsTruthy item.color && item.color.getD "" ≠ "various" &&
        item.color.getD "" ≠ "unknown"
     then [item.color.getD ""] else []) ++
    (if jsTruthy item.pattern && item.pattern.getD "" ≠ "solid" &&
        item.pattern.getD "" ≠ "unknown"
     then [item.pattern.getD ""] else []) ++
    [item.pieceType] ++
    (if jsTruthy item.style && item.style.getD "" ≠ "unknown"
     then [item.style.getD ""] else []) ++
    (if jsToLower item.pieceType = "dress" then ["women\x27s", "fashion"]
     else if jsToLower item.pieceType = "shoes" then ["footwear"]
     else if jsToLower item.pieceType = "bag" then ["handbag", "accessory"]
     else if jsToLower item.pieceType = "sunglasses" then
       ["eyewear", "accessory"]
     else [])
  String.intercalate " " parts

/-- `generateItemImages`: per-item crop generation. The generative calls and
file writes are abstracted by `imgGen`, which yields the
(`extractedImagePath`, `extractedImageUrl`) pair the loop body computes for
the item (`(none, none)` when no image was produced or an error was
caught); each kept item also gets the enhanced description. -/
def generateItemImages (imgGen : ExtractedItem → Option String × Option String)
    (items : List ExtractedItem) : List ExtractedItem :=
  items.map (fun item =>
    { item with
      extractedImagePath := (imgGen item).1,
      extractedImageUrl := (imgGen item).2,
      description := enhanceItemDescription item })

/-- `extractIndividualItems`: fails immediately when the generative backend
is not configured; otherwise fetches the image and queries the model
(abstracted by `fetchAndGenerate`, whose `Except.error` case is any
exception caught by the surrounding try) and runs
parse → dedup → crop-generation; on a caught exception it falls back to
the fixed placeholder items. -/
def extractIndividualItems (configured : Bool)
    (fetchAndGenerate : Except String String)
    (jsonParse : String → Option (List RawItem))
    (md5hex : String → String)
    (imgGen : ExtractedItem → Option String × Option String)
    (now : ℕ) (flatLayImageUrl : String) : Except String (List ExtractedItem) :=
  if configured = false then Except.error "Gemini API not configured"
  else
    match fetchAndGenerate with
    | Except.error _ =>
      Except.ok (generateFallbackItems flatLayImageUrl now)
    | Except.ok analysisText =>
      Except.ok (generateItemImages imgGen
        (removeDuplicateItems
          (parseGeminiResponse md5hex (jsonParse analysisText)
            analysisText flatLayImageUrl)))

end ItemExtractionService

namespace ShoppingSearchService

open ItemExtractionService

/-- The `ProductResult` interface of `ShoppingSearchService`. The
`relevanceScore` field is absent (`none`) on raw candidates and set by the
ranking stage, mirroring the `{ ...product, relevanceScore }` spread that
extends the object in place. -/
structure ProductResult where
  title : String
  price : String
  currency : String
  url : String
  retailer : String
  imageUrl : Option String := none
  rating : Option ℚ := none
  reviewCount : Option ℕ := none
  availability : String
  source : String
  relevanceScore : Option ℕ := none
deriving DecidableEq

/-- `normalizeProductTitle`: lowercase, strip non word/whitespace chars,
collapse whitespace, trim, first 60 chars — the near-duplicate title key. -/
def normalizeProductTitle (title : String) : String :=
  String.mk
    ((trimChars (collapseWs
      ((jsToLower title).data.filter (fun c => isWordChar c || isWs c)))).take 60)

/-- `getSourceScore`: static source-trust table (unknown sources score 0). -/
def getSourceScore (source : String) : ℕ :=
  if source = "gemini_web_search" then 5
  else if source = "google_lens" then 4
  else if source = "google_reverse" then 3
  else if source = "bing_reverse" then 2
  else if source = "gemini_web_search_fallback" then 1
  else 0

/-- The preferred-retailer allow-list of `calculateRelevance`. -/
def preferredRetailers : List String :=
  ["Amazon", "Target", "Nordstrom", "Zara", "H&M", "ASOS", "Macy\x27s",
   "Walmart"]

/-- `calculateRelevance`: base score from the source (25/20/15/10/8, else 0),
+3 for a preferred retailer, +2 for a present non-sentinel price, +1 for a
present image URL. The `item` parameter is unused by the source body. -/
def calculateRelevance (product : ProductResult) (item : ExtractedItem) : ℕ :=
  (if product.source = "gemini_web_search" then 25
   else if product.source = "google_lens" then 20
   else if product.source = "google_reverse" then 15
   else if product.source = "bing_reverse" then 10
   else if product.source = "gemini_web_search_fallback" then 8
   else 0)
  + (if product.retailer ∈ preferredRetailers then 3 else 0)
  + (if product.price ≠ "" ∧ product.price ≠ "Price not available" then 2
     else 0)
  + (if jsTruthy product.imageUrl then 1 else 0)

/-- The mutable state of the dedup loop in `deduplicateAndRankProducts`:
the `unique` array, the `seenUrls` set and the `seenTitles` map (modelled
as a cons-front association list — only `get`/`set` are used, and a
fresher binding shadows an older one exactly like `Map.set`). -/
structure DedupState where
  unique : List ProductResult
  seenUrls : List String
  seenTitles : List (String × ProductResult)

/-- `Map.get` on the title map. -/
def titlesGet (m : List (String × ProductResult)) (k : String) :
    Option ProductResult :=
  (m.find? (fun e => e.1 = k)).map (fun e => e.2)

/-- One iteration of the dedup loop of `deduplicateAndRankProducts`:
skip exact URL duplicates; on a normalized-title collision keep the
candidate from the better source (replacing in place on strict
improvement); otherwise append the new candidate. -/
def dedupStep (st : DedupState) (product : ProductResult) : DedupState :=
  if product.url ∈ st.seenUrls then st
  else
    match titlesGet st.seenTitles (normalizeProductTitle product.title) with
    | some existingProduct =>
      if getSourceScore existingProduct.source < getSourceScore product.source
      then
        { unique := st.unique.erase existingProduct ++ [product],
          seenUrls :=
            product.url :: st.seenUrls.filter (fun u => u ≠ existingProduct.url),
          seenTitles :=
            (normalizeProductTitle product.title, product) :: st.seenTitles }
      else st
    | none =>
      { unique := st.unique ++ [product],
        seenUrls := product.url :: st.seenUrls,
        seenTitles :=
          (normalizeProductTitle product.title, product) :: st.seenTitles }

/-- The deduplication phase of `deduplicateAndRankProducts`. -/
def dedupProducts (products : List ProductResult) : List ProductResult :=
  (products.foldl dedupStep ⟨[], [], []⟩).unique

/-- The `{ ...product, relevanceScore: calculateRelevance(product, item) }`
spread of the ranking phase. -/
def setRelevance (item : ExtractedItem) (product : ProductResult) :
    ProductResult :=
  { product with relevanceScore := some (calculateRelevance product item) }

/-- The score the sort comparator reads (every ranked candidate has it set). -/
def relScore (product : ProductResult) : ℕ :=
  product.relevanceScore.getD 0

/-- Stable descending insertion: a new arrival goes after every
already-placed candidate with a greater-or-equal score. -/
def insertDesc (product : ProductResult) : List ProductResult → List ProductResult
  | [] => [product]
  | q :: qs =>
    if relScore product ≤ relScore q then q :: insertDesc product qs
    else product :: q :: qs

/-- `sort((a, b) => b.relevanceScore - a.relevanceScore)`: stable sort,
descending by score (ECMAScript `Array.prototype.sort` is stable). -/
def sortByScoreDesc (products : List ProductResult) : List ProductResult :=
  products.foldl (fun acc p => insertDesc p acc) []

/-- `deduplicateAndRankProducts`: dedup by URL and normalized title, attach
relevance scores, sort descending by score. The source returns the whole
ranked list — there is no cap. -/
def deduplicateAndRankProducts (products : List ProductResult)
    (item : ExtractedItem) : List ProductResult :=
  sortByScoreDesc ((dedupProducts products).map (setRelevance item))

/-- The `ShoppingSearchResults` interface (per-item matcher output). -/
structure ShoppingSearchResults where
  itemId : String
  pieceType : String
  extractedImageUrl : Option String := none
  products : List ProductResult
  searchMethod : String
  confidence : ℚ
  totalResults : ℕ
deriving DecidableEq

/-- The loop body of `searchProductsForExtractedItems` for one item.
`searchByImage` abstracts the reverse-image backend call; its
`Except.error` case is an exception escaping into the surrounding catch
(only possible when a search is attempted — an item without a truthy
`extractedImageUrl` skips the backend entirely). -/
def processItem
    (searchByImage : ExtractedItem → Except String (List ProductResult))
    (item : ExtractedItem) : ShoppingSearchResults :=
  match (if jsTruthy item.extractedImageUrl then searchByImage item
         else Except.ok []) with
  | Except.ok products =>
    { itemId := item.id,
      pieceType := item.pieceType,
      extractedImageUrl := item.extractedImageUrl,
      products := products,
      searchMethod :=
        if jsTruthy item.extractedImageUrl && decide (0 < products.length)
        then "gemini_web_search" else "no_image_available",
      confidence := item.confidence,
      totalResults := products.length }
  | Except.error _ =>
    { itemId := item.id,
      pieceType := item.pieceType,
      extractedImageUrl := item.extractedImageUrl,
      products := [],
      searchMethod := "visual_search_failed",
      confidence := item.confidence,
      totalResults := 0 }

/-- `searchProductsForExtractedItems`: sequential per-item loop (the
inter-item pacing delay has no observable effect on the result). -/
def searchProductsForExtractedItems
    (searchByImage : ExtractedItem → Except String (List ProductResult))
    (extractedItems : List ExtractedItem) : List ShoppingSearchResults :=
  extractedItems.map (processItem searchByImage)

/-- Invariant of the dedup loop state: kept URLs are pairwise distinct,
`seenUrls` holds exactly the kept URLs, and `seenTitles` binds the
normalized title of each kept candidate to that candidate and nothing
else. -/
def StInv (st : DedupState) : Prop :=
  (st.unique.map (fun p => p.url)).Nodup ∧
  (∀ u, u ∈ st.seenUrls ↔ u ∈ st.unique.map (fun p => p.url)) ∧
  (∀ p ∈ st.unique,
    titlesGet st.seenTitles (normalizeProductTitle p.title) = some p) ∧
  (∀ k p, titlesGet st.seenTitles k = some p →
    p ∈ st.unique ∧ normalizeProductTitle p.title = k)

end ShoppingSearchService

namespace Fixtures

open ItemExtractionService ShoppingSearchService

/-- A generic extracted item used where the (ignored) `item` argument of the
ranking stage is needed. -/
def itemFixture : ExtractedItem :=
  { id := "item-1", pieceType := "dress", description := "red midi dress",
    boundingBox := { x := 0, y := 0, width := 1, height := 1 },
    confidence := 1 }

/-- Left boot of a physical pair, as the extractor might double-report it. -/
def leftBoot : ExtractedItem :=
  { id := "s1", pieceType := "shoes", description := "left black leather boot",
    boundingBox := { x := 1/10, y := 4/5, width := 3/10, height := 3/20 },
    confidence := 9/10, color := some "black" }

/-- Right boot of the same pair, described with one differing word, at the
same location. -/
def rightBoot : ExtractedItem :=
  { id := "s2", pieceType := "boot", description := "right black suede boot",
    boundingBox := { x := 1/10, y := 4/5, width := 3/10, height := 3/20 },
    confidence := 9/10, color := some "black" }

/-- A dress item; `dressTwin` carries the identical composite key. -/
def dressOnce : ExtractedItem :=
  { id := "d1", pieceType := "dress", description := "red midi dress",
    boundingBox := { x := 0, y := 0, width := 1, height := 1 },
    confidence := 1, color := some "red" }

/-- A second dress with the same composite key as `dressOnce`. -/
def dressTwin : ExtractedItem :=
  { id := "d2", pieceType := "dress", description := "red midi dress",
    boundingBox := { x := 0, y := 0, width := 1, height := 1 },
    confidence := 1, color := some "red" }

/-- A valid product candidate (title and url present, no irrelevant-audience
term) with index-distinct title and url. -/
def candidate (i : ℕ) : ProductResult :=
  { title := "Product Number " ++ toString i,
    price := "$10.00", currency := "USD",
    url := "https://example.com/product/" ++ toString i,
    retailer := "Amazon", availability := "available",
    source := "google_lens" }

/-- Ten valid, pairwise-distinct product candidates. -/
def tenCandidates : List ProductResult := (List.range 10).map candidate

/-- A candidate from the highest-trust source. -/
def productHi : ProductResult :=
  { title := "Red Midi Dress", price := "$29.99", currency := "USD",
    url := "https://example.com/product/hi", retailer := "Amazon",
    imageUrl := some "https://example.com/img/hi.jpg",
    availability := "available", source := "gemini_web_search" }

/-- The same candidate shape from a lower-trust source. -/
def productLo : ProductResult :=
  { title := "Red Midi Dress", price := "$29.99", currency := "USD",
    url := "https://example.com/product/lo", retailer := "Amazon",
    imageUrl := some "https://example.com/img/hi.jpg",
    availability := "available", source := "google_lens" }

/-- An extracted item carrying a crop image URL. -/
def itemWithImage : ExtractedItem :=
  { id := "w1", pieceType := "shoes", description := "black boots",
    boundingBox := { x := 0, y := 0, width := 1, height := 1 },
    confidence := 1,
    extractedImageUrl := some "http://localhost:3001/generated/items/a.png" }

/-- An extracted item with no crop image URL. -/
def itemNoImage : ExtractedItem :=
  { id := "n1", pieceType := "bag", description := "brown bag",
    boundingBox := { x := 0, y := 0, width := 1, height := 1 },
    confidence := 1 }

end Fixtures

/-! ## Theorems -/

open ItemExtractionService ShoppingSearchService Fixtures

/-- **C8.** If the generative backend is not configured, extraction fails
with an error for every input image reference and every behaviour of the
abstracted collaborators: no items are produced and no fallback path is
taken (the guard throws before the try/catch that shields the fallback). -/
theorem extractIndividualItems_unconfigured
    (fetchAndGenerate : Except String String)
    (jsonParse : String → Option (List RawItem))
    (md5hex : String → String)
    (imgGen : ExtractedItem → Option String × Option String)
    (now : ℕ) (flatLayImageUrl : String) :
    extractIndividualItems false fetchAndGenerate jsonParse md5hex imgGen
      now flatLayImageUrl = Except.error "Gemini API not configured" := by
  rfl

/-- **C6.** An item with no (truthy) `extractedImageUrl` yields an entry with
an empty product list and `searchMethod = "no_image_available"`; the entry
is the same for any two backends, i.e. the backend is never queried for
that item. -/
theorem searchProducts_no_image
    (s₁ s₂ : ExtractedItem → Except String (List ProductResult))
    (items : List ExtractedItem) (i : ℕ) (h : i < items.length)
    (hno : jsTruthy items[i].extractedImageUrl = false) :
    ∃ entry : ShoppingSearchResults,
      (searchProductsForExtractedItems s₁ items)[i]? = some entry ∧
      entry.products = [] ∧
      entry.searchMethod = "no_image_available" ∧
      (searchProductsForExtractedItems s₂ items)[i]? = some entry := by
  refine ⟨processItem s₁ items[i], ?_, ?_, ?_, ?_⟩
  · simp [searchProductsForExtractedItems, List.getElem?_map,
      List.getElem?_eq_getElem h]
  · simp [processItem, hno]
  · simp [processItem, hno]
  · simp [searchProductsForExtractedItems, List.getElem?_map,
      List.getElem?_eq_getElem h, processItem, hno]

/-- Witness for C6 at a concrete input. -/
theorem searchProducts_no_image_witness :
    ∃ entry : ShoppingSearchResults,
      (searchProductsForExtractedItems (fun _ => Except.ok [productHi])
        [itemNoImage])[0]? = some entry ∧
      entry.products = [] ∧
      entry.searchMethod = "no_image_available" ∧
      (searchProductsForExtractedItems (fun _ => Except.error "boom")
        [itemNoImage])[0]? = some entry :=
  searchProducts_no_image (fun _ => Except.ok [productHi])
    (fun _ => Except.error "boom") [itemNoImage] 0 (by decide) (by decide)

/-- **C10.** For every matcher entry, `searchMethod = "gemini_web_search"`
holds exactly when the item has a truthy `extractedImageUrl` and at least
one product was found; an item with an image whose search returned no
products gets the same `"no_image_available"` label as an item with no
image at all. -/
theorem searchProducts_method_iff
    (s : ExtractedItem → Except String (List ProductResult))
    (items : List ExtractedItem) (i : ℕ) (h : i < items.length)
    (entry : ShoppingSearchResults)
    (hentry : (searchProductsForExtractedItems s items)[i]? = some entry) :
    (entry.searchMethod = "gemini_web_search" ↔
      (jsTruthy items[i].extractedImageUrl = true ∧
        entry.products ≠ [])) ∧
    (jsTruthy items[i].extractedImageUrl = true →
      s items[i] = Except.ok [] →
      entry.searchMethod = "no_image_available") := by
  have he : entry = processItem s items[i] := by
    rw [searchProductsForExtractedItems, List.getElem?_map,
      List.getElem?_eq_getElem h] at hentry
    exact (Option.some_injective _ hentry).symm
  subst he
  cases htr : jsTruthy items[i].extractedImageUrl with
  | false =>
    constructor
    · simp [processItem, htr]
    · simp [htr]
  | true =>
    cases hs : s items[i] with
    | ok ps =>
      cases ps with
      | nil =>
        constructor
        · simp [processItem, htr, hs]
        · intro _ _; simp [processItem, htr, hs]
      | cons p ps' =>
        constructor
        · simp [processItem, htr, hs]
        · intro _ hok; simp at hok
    | error e =>
      constructor
      · simp [processItem, htr, hs]
      · intro _ hok; simp at hok

/-- Witness for C10 at a concrete input. -/
theorem searchProducts_method_iff_witness :
    (processItem (fun _ => Except.ok [productHi]) itemWithImage).searchMethod
        = "gemini_web_search" ∧
    (processItem (fun _ => Except.ok ([] : List ProductResult)) itemWithImage
        ).searchMethod = "no_image_available" := by
  have h₁ := searchProducts_method_iff (fun _ => Except.ok [productHi])
    [itemWithImage] 0 (by decide)
    (processItem (fun _ => Except.ok [productHi]) itemWithImage) rfl
  have h₂ := searchProducts_method_iff
    (fun _ => Except.ok ([] : List ProductResult)) [itemWithImage] 0 (by decide)
    (processItem (fun _ => Except.ok ([] : List ProductResult)) itemWithImage)
    rfl
  exact ⟨h₁.1.mpr (by decide), h₂.2 (by decide) rfl⟩

/-! ### String and enumeration helper lemmas -/

theorem string_append_left_cancel (a : String) {b c : String}
    (h : a ++ b = a ++ c) : b = c := by
  have hd := congrArg String.data h
  rw [String.data_append, String.data_append] at hd
  have hbc := List.append_cancel_left hd
  cases b; cases c
  exact congrArg String.mk hbc

theorem string_append_right_cancel {a b : String} (c : String)
    (h : a ++ c = b ++ c) : a = b := by
  have hd := congrArg String.data h
  rw [String.data_append, String.data_append] at hd
  have hab := List.append_cancel_right hd
  cases a; cases b
  exact congrArg String.mk hab

theorem string_append_ne_of_length_ne {a b : String} (c : String)
    (h : a.length ≠ b.length) : a ++ c ≠ b ++ c := by
  intro he
  have := congrArg String.length he
  rw [String.length_append, String.length_append] at this
  omega

theorem enumFrom_map_fst {α β : Type} (g : ℕ → β) :
    ∀ (l : List α) (n : ℕ),
      (List.enumFrom n l).map (fun p => g p.1) = (List.range' n l.length).map g
  | [], _ => rfl
  | a :: as, n => by
    simp only [List.enumFrom, List.map_cons, List.length_cons, List.range',
      enumFrom_map_fst g as (n + 1)]

theorem enumFrom_filter_map_snd {α : Type} (pr : α → Bool) :
    ∀ (l : List α) (n : ℕ),
      ((List.enumFrom n l).filter (fun ti => pr ti.2)).map (fun ti => ti.2) =
        l.filter pr
  | [], _ => rfl
  | a :: as, n => by
    cases hp : pr a <;>
      simp [List.enumFrom, List.filter_cons, hp,
        enumFrom_filter_map_snd pr as (n + 1)]

/-- Ids assigned on the JSON-parse path, as a function of position only. -/
theorem parse_ids (md5hex : String → String) (text url : String)
    (raws : List RawItem) :
    (parseGeminiResponse md5hex (some raws) text url).map (fun e => e.id) =
      (List.range' 0 raws.length).map
        (fun i => "extracted-" ++ (md5hex (url ++ toString i)).take 8) := by
  simp only [parseGeminiResponse, List.map_map, List.enum]
  exact enumFrom_map_fst
    (fun i => "extracted-" ++ (md5hex (url ++ toString i)).take 8) raws 0

/-- **C7, counterexample.** On the total-failure fallback path the item ids
embed the clock value (`Date.now()`), so two extraction runs on the same
image reference at different times yield equally long item lists whose
positional ids differ: the claimed cross-run id stability fails. -/
theorem extraction_ids_fallback_not_stable :
    (generateFallbackItems "https://img/flat.png" 1000).length =
      (generateFallbackItems "https://img/flat.png" 2000).length ∧
    (generateFallbackItems "https://img/flat.png" 1000).map (fun e => e.id) ≠
      (generateFallbackItems "https://img/flat.png" 2000).map (fun e => e.id)
    := by
  exact ⟨rfl, by decide⟩

/-- **C7, amended.** Extraction ids are deterministic in the image reference
and list position on the JSON-parse path (equal-length parses receive
identical positional ids, and the ids are pairwise distinct whenever the
truncated digest does not collide on the run's indices); the keyword-scan
fallback produces pairwise-distinct ids; the total-failure fallback
produces ids that are pairwise distinct within one run but embed the
current time, so they are not stable across runs. -/
theorem extraction_ids_amended (md5hex : String → String)
    (url text₁ text₂ text : String) (raws₁ raws₂ : List RawItem) (now : ℕ) :
    (raws₁.length = raws₂.length →
      (parseGeminiResponse md5hex (some raws₁) text₁ url).map (fun e => e.id) =
      (parseGeminiResponse md5hex (some raws₂) text₂ url).map (fun e => e.id)) ∧
    ((∀ i j, i < raws₁.length → j < raws₁.length → i ≠ j →
        (md5hex (url ++ toString i)).take 8 ≠
          (md5hex (url ++ toString j)).take 8) →
      ((parseGeminiResponse md5hex (some raws₁) text₁ url).map
        (fun e => e.id)).Nodup) ∧
    ((extractItemsWithRegex text url).map (fun e => e.id)).Nodup ∧
    ((generateFallbackItems url now).map (fun e => e.id)).Nodup := by
  refine ⟨?_, ?_, ?_, ?_⟩
  · intro hlen
    rw [parse_ids, parse_ids, hlen]
  · intro hinj
    rw [parse_ids]
    refine List.Nodup.map_on ?_ (List.nodup_range' 0 raws₁.length)
    intro x hx y hy hxy
    rw [List.mem_range'] at hx hy
    by_contra hne
    exact hinj x y (by omega) (by omega) hne
      (string_append_left_cancel "extracted-" hxy)
  · have hnat : ∀ i ∈ List.range 11, ∀ j ∈ List.range 11,
        ("extracted-fallback-" ++ toString i =
          "extracted-fallback-" ++ toString j) → i = j := by decide
    have hlen : clothingTypes.length = 11 := rfl
    rw [extractItemsWithRegex]
    rw [List.map_take, List.map_map]
    refine (List.take_sublist _ _).nodup ?_
    refine List.Nodup.map_on ?_
      ((List.filter_sublist _).nodup
        (List.Nodup.of_map _ (List.nodup_enum_map_fst clothingTypes)))
    intro ti hti tj htj hid
    have hti' := List.mem_enum (List.mem_of_mem_filter hti)
    have htj' := List.mem_enum (List.mem_of_mem_filter htj)
    have hid' : (regexFallbackItem ti.1 ti.2).id =
        (regexFallbackItem tj.1 tj.2).id := hid
    have hfst : ti.1 = tj.1 := by
      refine hnat ti.1 (by rw [List.mem_range]; omega) tj.1
        (by rw [List.mem_range]; omega) ?_
      simpa [regexFallbackItem] using hid'
    have hget : clothingTypes[ti.1]? = clothingTypes[tj.1]? := by rw [hfst]
    rw [List.getElem?_eq_getElem hti'.1, List.getElem?_eq_getElem htj'.1]
      at hget
    have hsnd : ti.2 = tj.2 := by
      rw [hti'.2, htj'.2]
      exact Option.some_injective _ hget
    exact Prod.ext hfst hsnd
  · have hds : "fallback-dress-" ++ toString now ≠
        "fallback-shoes-" ++ toString now :=
      fun h => absurd (string_append_right_cancel _ h) (by decide)
    have hdb : "fallback-dress-" ++ toString now ≠
        "fallback-bag-" ++ toString now :=
      string_append_ne_of_length_ne _ (by decide)
    have hsb : "fallback-shoes-" ++ toString now ≠
        "fallback-bag-" ++ toString now :=
      string_append_ne_of_length_ne _ (by decide)
    simp [generateFallbackItems, List.nodup_cons, hds, hdb, hsb]

/-- Witness for the amended C7 at a concrete digest and inputs. -/
theorem extraction_ids_amended_witness :
    ((parseGeminiResponse (fun s => s) (some [{}]) "alpha" "u").map
        (fun e => e.id) =
      (parseGeminiResponse (fun s => s) (some [{}]) "beta" "u").map
        (fun e => e.id)) ∧
    ((parseGeminiResponse (fun s => s) (some [{}]) "alpha" "u").map
        (fun e => e.id)).Nodup := by
  obtain ⟨h₁, h₂, _, _⟩ :=
    extraction_ids_amended (fun s => s) "u" "alpha" "beta" "txt" [{}] [{}] 7
  refine ⟨h₁ rfl, h₂ ?_⟩
  intro i j hi hj hne
  simp only [List.length_singleton] at hi hj
  omega

/-- **C9.** The keyword-scan fallback emits at most five entries; every
entry has confidence exactly 0.7 and is the placeholder (tiled bounding
box) entry for a clothing keyword found case-insensitively in the raw
text; and the emitted piece types are exactly the found keywords, in table
order, capped to five. -/
theorem extractItemsWithRegex_spec (text url : String) :
    (extractItemsWithRegex text url).length ≤ 5 ∧
    (∀ e ∈ extractItemsWithRegex text url,
      e.confidence = 7/10 ∧
      ∃ i, i < clothingTypes.length ∧
        ∃ t, clothingTypes[i]? = some t ∧ containsCI text t = true ∧
          e = regexFallbackItem i t) ∧
    (extractItemsWithRegex text url).map (fun e => e.pieceType) =
      (clothingTypes.filter (fun t => containsCI text t)).take 5 := by
  refine ⟨List.length_take_le _ _, ?_, ?_⟩
  · intro e he
    rw [extractItemsWithRegex] at he
    have he' := List.mem_of_mem_take he
    rw [List.mem_map] at he'
    obtain ⟨ti, hti, hmk⟩ := he'
    have hpr := List.of_mem_filter hti
    have hmem := List.mem_enum (List.mem_of_mem_filter hti)
    refine ⟨by rw [← hmk]; rfl, ti.1, hmem.1, ti.2, ?_, by simpa using hpr,
      hmk.symm⟩
    rw [List.getElem?_eq_getElem hmem.1, ← hmem.2]
  · rw [extractItemsWithRegex, List.map_take, List.map_map]
    rw [show ((fun e => ExtractedItem.pieceType e) ∘
        fun ti : ℕ × String => regexFallbackItem ti.1 ti.2) =
        (fun ti : ℕ × String => ti.2) from rfl]
    simp only [List.enum]
    rw [enumFrom_filter_map_snd (fun t => containsCI text t) clothingTypes 0]

/-- Witness for C9 at a concrete input. -/
theorem extractItemsWithRegex_spec_witness :
    (extractItemsWithRegex "I can see a red DRESS here" "u").length ≤ 5 ∧
    (regexFallbackItem 0 "dress").confidence = 7/10 := by
  obtain ⟨h₁, h₂, _⟩ := extractItemsWithRegex_spec "I can see a red DRESS here" "u"
  refine ⟨h₁, (h₂ (regexFallbackItem 0 "dress") ?_).1⟩
  with_unfolding_all decide

/-- **C5.** The relevance score is strictly monotone in source trust: for
two candidates identical in retailer, price and image URL, the one whose
source has the strictly higher trust score receives a strictly higher
relevance score (base 25/20/15/10/8 down the trust table, +3 preferred
retailer, +2 non-sentinel price, +1 image URL), and hence never ranks
below the other under the descending sort. -/
theorem calculateRelevance_monotone (item : ExtractedItem)
    (p q : ProductResult)
    (hr : p.retailer = q.retailer) (hp : p.price = q.price)
    (hi : p.imageUrl = q.imageUrl)
    (hts : getSourceScore q.source < getSourceScore p.source) :
    calculateRelevance q item < calculateRelevance p item := by
  have base_of_score : ∀ s : String,
      (if s = "gemini_web_search" then (25 : ℕ)
       else if s = "google_lens" then 20
       else if s = "google_reverse" then 15
       else if s = "bing_reverse" then 10
       else if s = "gemini_web_search_fallback" then 8
       else 0) = [0, 8, 10, 15, 20, 25].getD (getSourceScore s) 0 := by
    intro s
    unfold getSourceScore
    split_ifs <;> rfl
  have hle : ∀ s : String, getSourceScore s < 6 := by
    intro s
    unfold getSourceScore
    split_ifs <;> omega
  have key : ∀ a < 6, ∀ b < a,
      ([0, 8, 10, 15, 20, 25].getD b 0 : ℕ) <
        [0, 8, 10, 15, 20, 25].getD a 0 := by decide
  have hlt := key (getSourceScore p.source) (hle p.source)
    (getSourceScore q.source) hts
  unfold calculateRelevance
  rw [hr, hp, hi, base_of_score p.source, base_of_score q.source]
  omega

/-- Witness for C5 at a concrete pair of candidates. -/
theorem calculateRelevance_monotone_witness :
    calculateRelevance productLo itemFixture <
      calculateRelevance productHi itemFixture :=
  calculateRelevance_monotone itemFixture productHi productLo rfl rfl rfl
    (by decide)

/-- Decomposing a split of `L ++ [y]` around a distinguished element:
either the element is the appended `y`, or the split lies inside `L`. -/
theorem split_concat {α : Type} {l1 l2 : List α} {x y : α} {L : List α}
    (h : l1 ++ x :: l2 = L ++ [y]) :
    (l1 = L ∧ x = y ∧ l2 = []) ∨
    (∃ l2', l2 = l2' ++ [y] ∧ L = l1 ++ x :: l2') := by
  rcases List.eq_nil_or_concat l2 with rfl | ⟨l2', z, rfl⟩
  · have hinj := List.append_inj' h (by simp)
    exact Or.inl ⟨hinj.1, by simpa using hinj.2, rfl⟩
  · simp only [List.concat_eq_append] at h ⊢
    rw [show x :: (l2' ++ [z]) = (x :: l2') ++ [z] from rfl,
      ← List.append_assoc] at h
    have hinj := List.append_inj' h (by simp)
    have hz : z = y := by simpa using hinj.2
    exact Or.inr ⟨l2', by rw [hz], hinj.1.symm⟩

/-- Loop invariant of `removeDuplicateItems`: every kept item's key is in
`seen`, and any kept item whose key duplicates an earlier kept item's key
passed the paired-duplicate check against the items kept before it. -/
theorem removeDuplicateItemsAux_spec (rest : List ExtractedItem) :
    ∀ (dedup : List ExtractedItem) (seen : List String),
      (∀ d ∈ dedup, generateItemKey d ∈ seen) →
      (∀ l1 x l2, dedup = l1 ++ x :: l2 →
        generateItemKey x ∈ l1.map generateItemKey →
        isDuplicatePairedItem x l1 = false) →
      ∀ l1 x l2, removeDuplicateItemsAux rest dedup seen = l1 ++ x :: l2 →
        generateItemKey x ∈ l1.map generateItemKey →
        isDuplicatePairedItem x l1 = false := by
  induction rest with
  | nil =>
    intro dedup seen _ hP l1 x l2 heq hkey
    rw [removeDuplicateItemsAux] at heq
    exact hP l1 x l2 heq hkey
  | cons item rest ih =>
    intro dedup seen hInv hP l1 x l2 heq hkey
    rw [removeDuplicateItemsAux] at heq
    by_cases hseen : generateItemKey item ∈ seen
    · rw [if_pos hseen] at heq
      by_cases hdup : isDuplicatePairedItem item dedup = true
      · rw [if_pos hdup] at heq
        exact ih dedup seen hInv hP l1 x l2 heq hkey
      · rw [if_neg hdup] at heq
        rw [Bool.not_eq_true] at hdup
        refine ih (dedup ++ [item]) seen ?_ ?_ l1 x l2 heq hkey
        · intro d hd
          rcases List.mem_append.mp hd with hd | hd
          · exact hInv d hd
          · rw [List.mem_singleton.mp hd]
            exact hseen
        · intro m1 y m2 hsplit hk
          rcases split_concat hsplit.symm with ⟨h1, h2, _⟩ | ⟨m2', _, hL⟩
          · subst h1
            subst h2
            exact hdup
          · exact hP m1 y m2' hL hk
    · rw [if_neg hseen] at heq
      refine ih (dedup ++ [item]) (generateItemKey item :: seen) ?_ ?_
        l1 x l2 heq hkey
      · intro d hd
        rcases List.mem_append.mp hd with hd | hd
        · exact List.mem_cons_of_mem _ (hInv d hd)
        · rw [List.mem_singleton.mp hd]
          exact List.mem_cons_self _ _
      · intro m1 y m2 hsplit hk
        rcases split_concat hsplit.symm with ⟨h1, h2, _⟩ | ⟨m2', _, hL⟩
        · subst h1
          subst h2
          exfalso
          rcases List.mem_map.mp hk with ⟨d, hd, hkd⟩
          exact hseen (hkd ▸ hInv d hd)
        · exact hP m1 y m2' hL hk

/-- **C3, counterexample.** Two same-colored, same-location boots whose
descriptions differ in one word get distinct composite keys, so both pass
the key check and are both kept — yet they satisfy the pair-duplicate
predicate (same canonical type `shoes`, matching color, bounding-box
overlap 1 > 0.3). The claimed output invariant fails. -/
theorem removeDuplicateItems_pair_counterexample :
    removeDuplicateItems [leftBoot, rightBoot] = [leftBoot, rightBoot] ∧
    isDuplicatePairedItem rightBoot [leftBoot] = true := by
  constructor
  · with_unfolding_all decide
  · with_unfolding_all decide

/-- **C3, amended.** The paired-item duplicate check fires only for items
whose composite key was already seen: every kept item that shares its
composite key with an earlier kept item is not a pair-duplicate of any of
the items kept before it. (Items introducing a fresh key are kept without
the pair-duplicate check, so the unrestricted invariant fails — see the
counterexample.) -/
theorem removeDuplicateItems_partial_dedup (items l1 : List ExtractedItem)
    (x : ExtractedItem) (l2 : List ExtractedItem)
    (hsplit : removeDuplicateItems items = l1 ++ x :: l2)
    (hkey : generateItemKey x ∈ l1.map generateItemKey) :
    isDuplicatePairedItem x l1 = false := by
  refine removeDuplicateItemsAux_spec items [] [] (by simp) ?_ l1 x l2
    hsplit hkey
  intro m1 y m2 h
  exact absurd h.symm (List.append_ne_nil_of_right_ne_nil m1 (by simp))

/-- Witness for the amended C3: two dresses with identical keys are both
kept (non-paired type), and the second indeed fails the pair predicate. -/
theorem removeDuplicateItems_partial_dedup_witness :
    isDuplicatePairedItem dressTwin [dressOnce] = false := by
  refine removeDuplicateItems_partial_dedup [dressOnce, dressTwin] [dressOnce]
    dressTwin [] ?_ ?_
  · with_unfolding_all decide
  · with_unfolding_all decide

/-! ### Stable-sort lemmas -/

theorem insertDesc_perm (p : ProductResult) :
    ∀ l : List ProductResult, List.Perm (insertDesc p l) (p :: l)
  | [] => List.Perm.refl _
  | q :: qs => by
    rw [insertDesc]
    by_cases h : relScore p ≤ relScore q
    · rw [if_pos h]
      exact ((insertDesc_perm p qs).cons q).trans (List.Perm.swap p q qs)
    · rw [if_neg h]

theorem sort_core_perm :
    ∀ (l acc : List ProductResult),
      List.Perm (l.foldl (fun acc p => insertDesc p acc) acc) (acc ++ l)
  | [], acc => by simp
  | p :: rest, acc => by
    rw [List.foldl_cons]
    refine (sort_core_perm rest (insertDesc p acc)).trans ?_
    refine (((insertDesc_perm p acc).append_right rest).trans ?_)
    exact List.perm_middle.symm

theorem sortByScoreDesc_perm (l : List ProductResult) :
    List.Perm (sortByScoreDesc l) l := by
  simpa using sort_core_perm l []

theorem insertDesc_sorted (p : ProductResult) :
    ∀ l : List ProductResult,
      l.Pairwise (fun a b => relScore b ≤ relScore a) →
      (insertDesc p l).Pairwise (fun a b => relScore b ≤ relScore a)
  | [], _ => by simp [insertDesc]
  | q :: qs, h => by
    rw [List.pairwise_cons] at h
    rw [insertDesc]
    by_cases hpq : relScore p ≤ relScore q
    · rw [if_pos hpq]
      rw [List.pairwise_cons]
      refine ⟨?_, insertDesc_sorted p qs h.2⟩
      intro b hb
      rcases List.mem_cons.mp ((insertDesc_perm p qs).mem_iff.mp hb) with
        hb | hb
      · rw [hb]; exact hpq
      · exact h.1 b hb
    · rw [if_neg hpq]
      rw [List.pairwise_cons]
      refine ⟨?_, by rw [List.pairwise_cons]; exact h⟩
      intro b hb
      rcases List.mem_cons.mp hb with hb | hb
      · rw [hb]; omega
      · have := h.1 b hb; omega

theorem sort_core_sorted :
    ∀ (l acc : List ProductResult),
      acc.Pairwise (fun a b => relScore b ≤ relScore a) →
      (l.foldl (fun acc p => insertDesc p acc) acc).Pairwise
        (fun a b => relScore b ≤ relScore a)
  | [], _, h => h
  | p :: rest, acc, h => by
    rw [List.foldl_cons]
    exact sort_core_sorted rest (insertDesc p acc) (insertDesc_sorted p acc h)

theorem sortByScoreDesc_sorted (l : List ProductResult) :
    (sortByScoreDesc l).Pairwise (fun a b => relScore b ≤ relScore a) :=
  sort_core_sorted l [] (List.Pairwise.nil)

theorem insertDesc_filter (p : ProductResult) (s : ℕ) :
    ∀ l : List ProductResult,
      l.Pairwise (fun a b => relScore b ≤ relScore a) →
      (insertDesc p l).filter (fun q => relScore q == s) =
        if relScore p = s then
          l.filter (fun q => relScore q == s) ++ [p]
        else l.filter (fun q => relScore q == s)
  | [], _ => by
    by_cases hps : relScore p = s <;>
      simp [insertDesc, List.filter_cons, beq_iff_eq, hps]
  | q :: qs, h => by
    rw [List.pairwise_cons] at h
    rw [insertDesc]
    by_cases hpq : relScore p ≤ relScore q
    · rw [if_pos hpq]
      by_cases hps : relScore p = s <;>
        by_cases hqs : relScore q = s <;>
          simp [List.filter_cons, hps, hqs, insertDesc_filter p s qs h.2]
    · rw [if_neg hpq]
      by_cases hps : relScore p = s
      · have hnil : (q :: qs).filter (fun r => relScore r == s) = [] := by
          rw [List.filter_eq_nil]
          intro b hb
          have hble : relScore b ≤ relScore q := by
            rcases List.mem_cons.mp hb with hb | hb
            · rw [hb]
            · exact h.1 b hb
          simp only [beq_iff_eq]
          omega
        rw [hnil]
        by_cases hqs : relScore q = s <;>
          simp_all [List.filter_cons, hps]
      · by_cases hqs : relScore q = s <;>
          simp [List.filter_cons, hps, hqs]

theorem sort_core_filter (s : ℕ) :
    ∀ (l acc : List ProductResult),
      acc.Pairwise (fun a b => relScore b ≤ relScore a) →
      (l.foldl (fun acc p => insertDesc p acc) acc).filter
          (fun q => relScore q == s) =
        acc.filter (fun q => relScore q == s) ++
          l.filter (fun q => relScore q == s)
  | [], acc, _ => by simp
  | p :: rest, acc, h => by
    rw [List.foldl_cons,
      sort_core_filter s rest (insertDesc p acc) (insertDesc_sorted p acc h),
      insertDesc_filter p s acc h]
    by_cases hps : relScore p = s <;>
      simp [List.filter_cons, hps]

theorem sortByScoreDesc_filter (l : List ProductResult) (s : ℕ) :
    (sortByScoreDesc l).filter (fun q => relScore q == s) =
      l.filter (fun q => relScore q == s) := by
  simpa using sort_core_filter s l [] List.Pairwise.nil

theorem insertDesc_of_all_ge (p : ProductResult) :
    ∀ l : List ProductResult,
      (∀ q ∈ l, relScore p ≤ relScore q) → insertDesc p l = l ++ [p]
  | [], _ => rfl
  | q :: qs, h => by
    rw [insertDesc, if_pos (h q (List.mem_cons_self q qs)),
      insertDesc_of_all_ge p qs (fun r hr => h r (List.mem_cons_of_mem q hr))]
    rfl

theorem sortByScoreDesc_of_sorted (l : List ProductResult)
    (h : l.Pairwise (fun a b => relScore b ≤ relScore a)) :
    sortByScoreDesc l = l := by
  induction l using List.reverseRecOn with
  | nil => rfl
  | append_singleton xs p ih =>
    rw [List.pairwise_append] at h
    rw [sortByScoreDesc, List.foldl_append, List.foldl_cons, List.foldl_nil]
    have hxs : xs.foldl (fun acc q => insertDesc q acc) [] = xs := by
      have := ih h.1
      rwa [sortByScoreDesc] at this
    rw [hxs]
    exact insertDesc_of_all_ge p xs
      (fun q hq => h.2.2 q hq p (List.mem_singleton_self p))

/-! ### Dedup-state invariant lemmas -/

theorem titlesGet_cons_self (m : List (String × ProductResult)) (k : String)
    (p : ProductResult) : titlesGet ((k, p) :: m) k = some p := by
  simp [titlesGet]

theorem titlesGet_cons_ne (m : List (String × ProductResult))
    (k k' : String) (p : ProductResult) (h : k' ≠ k) :
    titlesGet ((k, p) :: m) k' = titlesGet m k' := by
  simp [titlesGet, List.find?_cons, Ne.symm h]

theorem stInv_empty : StInv ⟨[], [], []⟩ := by
  refine ⟨List.nodup_nil, ?_, ?_, ?_⟩ <;> simp [titlesGet]

theorem stInv_step (st : DedupState) (p : ProductResult) (hInv : StInv st) :
    StInv (dedupStep st p) := by
  obtain ⟨hNodup, hUrls, hGet, hBack⟩ := hInv
  rw [dedupStep]
  by_cases hurl : p.url ∈ st.seenUrls
  · rw [if_pos hurl]
    exact ⟨hNodup, hUrls, hGet, hBack⟩
  · rw [if_neg hurl]
    have hpnot : p.url ∉ st.unique.map (fun q => q.url) :=
      fun hmem => hurl ((hUrls p.url).mpr hmem)
    cases hfind : titlesGet st.seenTitles (normalizeProductTitle p.title) with
    | none =>
      dsimp only
      refine ⟨?_, ?_, ?_, ?_⟩
      · rw [List.map_append, List.nodup_append]
        refine ⟨hNodup, List.nodup_singleton _, ?_⟩
        intro a ha hb
        rw [List.map_singleton, List.mem_singleton] at hb
        subst hb
        exact hpnot ha
      · intro u
        simp only [List.mem_cons, List.map_append, List.mem_append,
          List.map_singleton, List.mem_singleton]
        rw [hUrls u]
        tauto
      · intro q hq
        rcases List.mem_append.mp hq with hq | hq
        · have hne : normalizeProductTitle q.title ≠
              normalizeProductTitle p.title := by
            intro he
            have h1 := hGet q hq
            rw [he, hfind] at h1
            exact Option.noConfusion h1
          rw [titlesGet_cons_ne _ _ _ _ hne]
          exact hGet q hq
        · rw [List.mem_singleton.mp hq]
          exact titlesGet_cons_self _ _ _
      · intro k q hk
        by_cases hkp : k = normalizeProductTitle p.title
        · subst hkp
          rw [titlesGet_cons_self] at hk
          injection hk with hk
          subst hk
          exact ⟨List.mem_append_right _ (List.mem_singleton_self _), rfl⟩
        · rw [titlesGet_cons_ne _ _ _ _ hkp] at hk
          obtain ⟨hmem, hkey⟩ := hBack k q hk
          exact ⟨List.mem_append_left _ hmem, hkey⟩
    | some existing =>
      dsimp only
      obtain ⟨hexmem, hexkey⟩ := hBack _ _ hfind
      by_cases hscore : getSourceScore existing.source < getSourceScore p.source
      · rw [if_pos hscore]
        have hUniqueNodup : st.unique.Nodup := List.Nodup.of_map _ hNodup
        have hinj := List.inj_on_of_nodup_map hNodup
        have hmem_erase : ∀ u,
            u ∈ (st.unique.erase existing).map (fun q => q.url) ↔
              (u ∈ st.unique.map (fun q => q.url) ∧ u ≠ existing.url) := by
          intro u
          constructor
          · intro hu
            rcases List.mem_map.mp hu with ⟨q, hqmem, rfl⟩
            have hq' := (hUniqueNodup.mem_erase_iff).mp hqmem
            refine ⟨List.mem_map_of_mem _ hq'.2, ?_⟩
            intro he
            exact hq'.1 (hinj hq'.2 hexmem he)
          · rintro ⟨hu, hne⟩
            rcases List.mem_map.mp hu with ⟨q, hqmem, rfl⟩
            refine List.mem_map_of_mem _
              ((hUniqueNodup.mem_erase_iff).mpr ⟨?_, hqmem⟩)
            intro he
            exact hne (he ▸ rfl)
        have hsub : ((st.unique.erase existing).map (fun q => q.url)).Nodup :=
          ((st.unique.erase_sublist existing).map _).nodup hNodup
        refine ⟨?_, ?_, ?_, ?_⟩
        · rw [List.map_append, List.nodup_append]
          refine ⟨hsub, List.nodup_singleton _, ?_⟩
          intro a ha hb
          rw [List.map_singleton, List.mem_singleton] at hb
          subst hb
          exact hpnot ((hmem_erase p.url).mp ha).1
        · intro u
          constructor
          · intro hu
            rcases List.mem_cons.mp hu with rfl | hu
            · rw [List.map_append]
              exact List.mem_append_right _ (by simp)
            · rw [List.mem_filter] at hu
              have h1 := (hUrls u).mp hu.1
              have h2 : u ≠ existing.url := by simpa using hu.2
              rw [List.map_append]
              exact List.mem_append_left _ ((hmem_erase u).mpr ⟨h1, h2⟩)
          · intro hu
            rw [List.map_append, List.mem_append] at hu
            rcases hu with hu | hu
            · obtain ⟨h1, h2⟩ := (hmem_erase u).mp hu
              refine List.mem_cons_of_mem _ ?_
              rw [List.mem_filter]
              exact ⟨(hUrls u).mpr h1, by simpa using h2⟩
            · rw [List.map_singleton, List.mem_singleton] at hu
              rw [hu]
              exact List.mem_cons_self _ _
        · intro q hq
          rcases List.mem_append.mp hq with hq | hq
          · have hqmem := (hUniqueNodup.mem_erase_iff).mp hq
            have hne : normalizeProductTitle q.title ≠
                normalizeProductTitle p.title := by
              intro he
              have h1 := hGet q hqmem.2
              rw [he, hfind] at h1
              injection h1 with h1
              exact hqmem.1 h1.symm
            rw [titlesGet_cons_ne _ _ _ _ hne]
            exact hGet q hqmem.2
          · rw [List.mem_singleton.mp hq]
            exact titlesGet_cons_self _ _ _
        · intro k q hk
          by_cases hkp : k = normalizeProductTitle p.title
          · subst hkp
            rw [titlesGet_cons_self] at hk
            injection hk with hk
            subst hk
            exact ⟨List.mem_append_right _ (List.mem_singleton_self _), rfl⟩
          · rw [titlesGet_cons_ne _ _ _ _ hkp] at hk
            obtain ⟨hmem, hkey⟩ := hBack k q hk
            have hqne : q ≠ existing := by
              intro he
              subst he
              exact hkp (by rw [← hkey, hexkey])
            exact ⟨List.mem_append_left _
              ((hUniqueNodup.mem_erase_iff).mpr ⟨hqne, hmem⟩), hkey⟩
      · rw [if_neg hscore]
        exact ⟨hNodup, hUrls, hGet, hBack⟩

theorem stInv_fold :
    ∀ (l : List ProductResult) (st : DedupState),
      StInv st → StInv (l.foldl dedupStep st)
  | [], _, h => h
  | p :: rest, st, h => by
    rw [List.foldl_cons]
    exact stInv_fold rest _ (stInv_step st p h)

theorem stInv_titles_nodup (st : DedupState) (hInv : StInv st) :
    (st.unique.map (fun q => normalizeProductTitle q.title)).Nodup := by
  obtain ⟨hNodup, _, hGet, _⟩ := hInv
  refine List.Nodup.map_on ?_ (List.Nodup.of_map _ hNodup)
  intro x hx y hy hxy
  have h1 := hGet x hx
  have h2 := hGet y hy
  rw [hxy] at h1
  exact Option.some_injective _ (h1.symm.trans h2)

theorem dedupProducts_urls_nodup (products : List ProductResult) :
    ((dedupProducts products).map (fun q => q.url)).Nodup :=
  (stInv_fold products _ stInv_empty).1

theorem dedupProducts_titles_nodup (products : List ProductResult) :
    ((dedupProducts products).map
      (fun q => normalizeProductTitle q.title)).Nodup :=
  stInv_titles_nodup _ (stInv_fold products _ stInv_empty)

theorem dedup_fold_fresh :
    ∀ (l : List ProductResult) (st : DedupState), StInv st →
      ((st.unique ++ l).map (fun q => q.url)).Nodup →
      ((st.unique ++ l).map (fun q => normalizeProductTitle q.title)).Nodup →
      (l.foldl dedupStep st).unique = st.unique ++ l
  | [], st, _, _, _ => by simp
  | p :: rest, st, hInv, hu, ht => by
    obtain ⟨hNodup, hUrls, hGet, hBack⟩ := hInv
    have hpurl : p.url ∉ st.seenUrls := by
      intro hmem
      have h1 := (hUrls p.url).mp hmem
      rw [List.map_append, List.nodup_append] at hu
      exact hu.2.2 h1 (by simp)
    have hpfind :
        titlesGet st.seenTitles (normalizeProductTitle p.title) = none := by
      cases hf : titlesGet st.seenTitles (normalizeProductTitle p.title) with
      | none => rfl
      | some q =>
        exfalso
        obtain ⟨hqmem, hqkey⟩ := hBack _ _ hf
        rw [List.map_append, List.nodup_append] at ht
        refine ht.2.2 (List.mem_map_of_mem _ hqmem) ?_
        rw [hqkey]
        simp
    have hstep : dedupStep st p =
        ⟨st.unique ++ [p], p.url :: st.seenUrls,
          (normalizeProductTitle p.title, p) :: st.seenTitles⟩ := by
      rw [dedupStep, if_neg hpurl, hpfind]
    have hInv' : StInv (dedupStep st p) :=
      stInv_step st p ⟨hNodup, hUrls, hGet, hBack⟩
    rw [hstep] at hInv'
    rw [List.foldl_cons, hstep]
    rw [List.append_cons st.unique p rest] at hu ht
    have := dedup_fold_fresh rest
      ⟨st.unique ++ [p], p.url :: st.seenUrls,
        (normalizeProductTitle p.title, p) :: st.seenTitles⟩ hInv' hu ht
    rw [this, ← List.append_cons]

theorem list_map_eq_self {α : Type} (f : α → α) :
    ∀ (l : List α), (∀ x ∈ l, f x = x) → l.map f = l
  | [], _ => rfl
  | a :: as, h => by
    rw [List.map_cons, h a (List.mem_cons_self a as),
      list_map_eq_self f as (fun x hx => h x (List.mem_cons_of_mem a hx))]

theorem fusion_urls_eq (products : List ProductResult)
    (item : ExtractedItem) :
    ((dedupProducts products).map (setRelevance item)).map (fun q => q.url) =
      (dedupProducts products).map (fun q => q.url) := by
  rw [List.map_map]
  rfl

theorem fusion_titles_eq (products : List ProductResult)
    (item : ExtractedItem) :
    ((dedupProducts products).map (setRelevance item)).map
        (fun q => normalizeProductTitle q.title) =
      (dedupProducts products).map (fun q => normalizeProductTitle q.title) := by
  rw [List.map_map]
  rfl

theorem fusion_nodup_aux (products : List ProductResult)
    (item : ExtractedItem) :
    ((deduplicateAndRankProducts products item).map (fun q => q.url)).Nodup ∧
    ((deduplicateAndRankProducts products item).map
      (fun q => normalizeProductTitle q.title)).Nodup := by
  have hperm :=
    sortByScoreDesc_perm ((dedupProducts products).map (setRelevance item))
  constructor
  · refine ((hperm.map (fun q => q.url)).nodup_iff).mpr ?_
    rw [fusion_urls_eq]
    exact dedupProducts_urls_nodup products
  · refine ((hperm.map (fun q => normalizeProductTitle q.title)).nodup_iff).mpr
      ?_
    rw [fusion_titles_eq]
    exact dedupProducts_titles_nodup products

/-- **C1.** The fusion stage returns a list in which no two candidates share
a URL and no two candidates share a normalized title key (lowercase,
punctuation stripped, whitespace collapsed, first 60 chars). -/
theorem fusion_nodup (products : List ProductResult) (item : ExtractedItem) :
    ((deduplicateAndRankProducts products item).map (fun q => q.url)).Nodup ∧
    ((deduplicateAndRankProducts products item).map
      (fun q => normalizeProductTitle q.title)).Nodup :=
  fusion_nodup_aux products item

/-- **C2, counterexample.** The source never caps the fused list: ten valid,
pairwise-distinct candidates all survive, so the output has length 10,
contradicting the claimed cap of at most 8. -/
theorem fusion_cap_counterexample :
    (deduplicateAndRankProducts tenCandidates itemFixture).length = 10 ∧
    ¬ (deduplicateAndRankProducts tenCandidates itemFixture).length ≤ 8 := by
  have h : (deduplicateAndRankProducts tenCandidates itemFixture).length = 10
    := by with_unfolding_all decide
  exact ⟨h, by omega⟩

/-- **C2, amended.** The fused list is sorted descending by relevance score
with ties kept in arrival order (the score-class subsequences are exactly
those of the scored dedup survivors), and its length equals the number of
dedup survivors: the stage applies no cap. -/
theorem fusion_sorted_stable_uncapped (products : List ProductResult)
    (item : ExtractedItem) :
    (deduplicateAndRankProducts products item).Pairwise
      (fun a b => relScore b ≤ relScore a) ∧
    (∀ s : ℕ, (deduplicateAndRankProducts products item).filter
        (fun q => relScore q == s) =
      ((dedupProducts products).map (setRelevance item)).filter
        (fun q => relScore q == s)) ∧
    (deduplicateAndRankProducts products item).length =
      (dedupProducts products).length := by
  refine ⟨sortByScoreDesc_sorted _, fun s => sortByScoreDesc_filter _ s, ?_⟩
  have h :=
    (sortByScoreDesc_perm
      ((dedupProducts products).map (setRelevance item))).length_eq
  rw [deduplicateAndRankProducts, h, List.length_map]

/-- **C4.** Fusion is idempotent: re-running `deduplicateAndRankProducts` on
its own output returns the output unchanged (for every input list — the
stage has no cap, so in particular for inputs below the claimed cap). -/
theorem fusion_idempotent (products : List ProductResult)
    (item : ExtractedItem) :
    deduplicateAndRankProducts (deduplicateAndRankProducts products item) item
      = deduplicateAndRankProducts products item := by
  have hperm :=
    sortByScoreDesc_perm ((dedupProducts products).map (setRelevance item))
  have hu : ((deduplicateAndRankProducts products item).map
      (fun q => q.url)).Nodup := (fusion_nodup_aux products item).1
  have ht : ((deduplicateAndRankProducts products item).map
      (fun q => normalizeProductTitle q.title)).Nodup :=
    (fusion_nodup_aux products item).2
  have hd : dedupProducts (deduplicateAndRankProducts products item) =
      deduplicateAndRankProducts products item := by
    rw [dedupProducts]
    have := dedup_fold_fresh (deduplicateAndRankProducts products item)
      ⟨[], [], []⟩ stInv_empty (by simpa) (by simpa)
    simpa using this
  have hm : (deduplicateAndRankProducts products item).map
      (setRelevance item) = deduplicateAndRankProducts products item := by
    refine list_map_eq_self _ _ ?_
    intro x hx
    have hx' := hperm.mem_iff.mp hx
    rcases List.mem_map.mp hx' with ⟨y, _, rfl⟩
    rfl
  have hs : sortByScoreDesc (deduplicateAndRankProducts products item) =
      deduplicateAndRankProducts products item :=
    sortByScoreDesc_of_sorted _ (sortByScoreDesc_sorted _)
  rw [show deduplicateAndRankProducts
      (deduplicateAndRankProducts products item) item =
    sortByScoreDesc ((dedupProducts
      (deduplicateAndRankProducts products item)).map (setRelevance item))
    from rfl]
  rw [hd, hm, hs]

end OutfitShopping
